import Mathlib

/-!
Verification of the asof-join matching semantics and the memoized-call
persistence contract described by the repository's documentation.  The
repository ships only tutorial material (the asof-join notebook and the
AsyncTransformer caching guide); the engine itself is not part of the
source tree, so the two components are modelled from the specification
text, while the tutorial's own Python code (EmailCheckTransformer.invoke)
is embedded directly from the source.
-/

/-- Modelled from the spec: a row of a stream.  The engine's Row type is not
in the source tree.  A row carries its equality-key value (`key`, e.g. the
stock symbol or an email), a timestamp `t` drawn from a totally ordered
type (encoded as an integer; dates are encoded as day offsets), and one
payload value `val`. -/
structure Row where
  key : String
  t : Int
  val : Int
deriving DecidableEq, Repr

/-- Modelled from the spec: the direction policy of the asof join. -/
inductive Direction where
  | BACKWARD
  | FORWARD
  | NEAREST
deriving DecidableEq, Repr

/-- Modelled from the spec: the join mode of the asof join. -/
inductive JoinMode where
  | LEFT
  | RIGHT
  | FULL
deriving DecidableEq, Repr

/-- Absolute distance between a self timestamp `ts` and another timestamp
`t`. -/
def tdist (ts t : Int) : Int := if t ≤ ts then ts - t else t - ts

/-- Modelled from the spec: eligibility of a candidate under a direction.
BACKWARD admits candidates at or before the self timestamp, FORWARD at or
after, NEAREST admits every candidate. -/
def eligible : Direction → Int → Row → Bool
  | Direction.BACKWARD, ts, r => decide (r.t ≤ ts)
  | Direction.FORWARD, ts, r => decide (ts ≤ r.t)
  | Direction.NEAREST, _, _ => true

/-- Modelled from the spec: the selection score of an eligible candidate,
ordered lexicographically (smaller is better).  BACKWARD minimizes
`ts - t` (i.e. picks the greatest timestamp at-or-before), FORWARD
minimizes `t - ts`, NEAREST minimizes the absolute distance and, on an
exact tie, prefers the backward candidate (second component 0) over the
forward one (second component 1). -/
def score (dir : Direction) (ts : Int) (r : Row) : Int × Int :=
  match dir with
  | Direction.BACKWARD => (ts - r.t, 0)
  | Direction.FORWARD => (r.t - ts, 0)
  | Direction.NEAREST => (tdist ts r.t, if r.t ≤ ts then 0 else 1)

/-- Strict lexicographic comparison of scores. -/
def scoreLt (a b : Int × Int) : Bool :=
  decide (a.1 < b.1) || (decide (a.1 = b.1) && decide (a.2 < b.2))

/-- Combine one candidate with the best of the later candidates: a later
candidate `b` replaces `r` only when its score is strictly smaller, so
ties among identical scores are broken by insertion order (the earlier
row wins), as the spec requires for determinism. -/
def pickStep (dir : Direction) (ts : Int) (r : Row) : Option Row → Option Row
  | none => if eligible dir ts r then some r else none
  | some b =>
    if eligible dir ts r then
      if scoreLt (score dir ts b) (score dir ts r) then some b else some r
    else some b

/-- Modelled from the spec: select the best eligible candidate from a list
under the direction's score. -/
def pickBest (dir : Direction) (ts : Int) : List Row → Option Row
  | [] => none
  | r :: rs => pickStep dir ts r (pickBest dir ts rs)

/-- Modelled from the spec: the same-key candidate restriction (step 1 of
the matching algorithm). -/
def sameKey (s : Row) (others : List Row) : List Row :=
  others.filter (fun o => decide (o.key = s.key))

/-- Modelled from the spec: the match selected for one self-row, if any. -/
def matchFor (dir : Direction) (s : Row) (others : List Row) : Option Row :=
  pickBest dir s.t (sameKey s others)

lemma scoreLt_irrefl (a : Int × Int) : scoreLt a a = false := by
  simp [scoreLt]

lemma scoreLt_asymm {a b : Int × Int} (h : scoreLt a b = true) :
    scoreLt b a = false := by
  simp [scoreLt] at h ⊢
  omega

lemma scoreLt_false_trans {a b c : Int × Int} (h1 : scoreLt a b = false)
    (h2 : scoreLt b c = false) : scoreLt a c = false := by
  simp [scoreLt] at h1 h2 ⊢
  omega

lemma pickBest_mem_eligible (dir : Direction) (ts : Int) :
    ∀ (l : List Row) (r : Row), pickBest dir ts l = some r →
      r ∈ l ∧ eligible dir ts r = true := by
  intro l
  induction l with
  | nil => intro r h; simp [pickBest] at h
  | cons a l ih =>
    intro r h
    rw [pickBest] at h
    cases hp : pickBest dir ts l with
    | none =>
      rw [hp] at h
      simp only [pickStep] at h
      by_cases he : eligible dir ts a = true
      · rw [if_pos he] at h
        cases h
        exact ⟨List.mem_cons_self a l, he⟩
      · rw [if_neg he] at h
        cases h
    | some b =>
      rw [hp] at h
      simp only [pickStep] at h
      by_cases he : eligible dir ts a = true
      · rw [if_pos he] at h
        by_cases hs : scoreLt (score dir ts b) (score dir ts a) = true
        · rw [if_pos hs] at h
          cases h
          obtain ⟨hm, hel⟩ := ih _ hp
          exact ⟨List.mem_cons_of_mem a hm, hel⟩
        · rw [if_neg hs] at h
          cases h
          exact ⟨List.mem_cons_self a l, he⟩
      · rw [if_neg he] at h
        cases h
        obtain ⟨hm, hel⟩ := ih _ hp
        exact ⟨List.mem_cons_of_mem a hm, hel⟩

lemma pickBest_isSome (dir : Direction) (ts : Int) :
    ∀ (l : List Row) (c : Row), c ∈ l → eligible dir ts c = true →
      ∃ r, pickBest dir ts l = some r := by
  intro l
  induction l with
  | nil => intro c hc; simp at hc
  | cons a l ih =>
    intro c hc he
    rw [pickBest]
    cases hp : pickBest dir ts l with
    | none =>
      simp only [pickStep]
      rcases List.mem_cons.1 hc with h | h
      · subst h
        rw [if_pos he]
        exact ⟨c, rfl⟩
      · obtain ⟨r, hr⟩ := ih c h he
        rw [hr] at hp
        cases hp
    | some b =>
      simp only [pickStep]
      by_cases hea : eligible dir ts a = true
      · rw [if_pos hea]
        by_cases hs : scoreLt (score dir ts b) (score dir ts a) = true
        · rw [if_pos hs]; exact ⟨b, rfl⟩
        · rw [if_neg hs]; exact ⟨a, rfl⟩
      · rw [if_neg hea]
        exact ⟨b, rfl⟩

lemma pickBest_none_of (dir : Direction) (ts : Int) :
    ∀ (l : List Row), (∀ c ∈ l, eligible dir ts c = false) →
      pickBest dir ts l = none := by
  intro l
  induction l with
  | nil => intro _; rfl
  | cons a l ih =>
    intro h
    rw [pickBest, ih (fun c hc => h c (List.mem_cons_of_mem a hc))]
    simp only [pickStep]
    rw [if_neg]
    rw [h a (List.mem_cons_self a l)]
    simp

lemma pickBest_not_lt (dir : Direction) (ts : Int) :
    ∀ (l : List Row) (r : Row), pickBest dir ts l = some r →
      ∀ c ∈ l, eligible dir ts c = true →
        scoreLt (score dir ts c) (score dir ts r) = false := by
  intro l
  induction l with
  | nil => intro r h; simp [pickBest] at h
  | cons a l ih =>
    intro r h c hc he
    rw [pickBest] at h
    cases hp : pickBest dir ts l with
    | none =>
      rw [hp] at h
      simp only [pickStep] at h
      by_cases hea : eligible dir ts a = true
      · rw [if_pos hea] at h
        cases h
        rcases List.mem_cons.1 hc with hca | hca
        · subst hca; exact scoreLt_irrefl _
        · obtain ⟨w, hw⟩ := pickBest_isSome dir ts l c hca he
          rw [hw] at hp; cases hp
      · rw [if_neg hea] at h
        cases h
    | some b =>
      rw [hp] at h
      simp only [pickStep] at h
      by_cases hea : eligible dir ts a = true
      · rw [if_pos hea] at h
        by_cases hs : scoreLt (score dir ts b) (score dir ts a) = true
        · rw [if_pos hs] at h
          cases h
          rcases List.mem_cons.1 hc with hca | hca
          · subst hca
            exact scoreLt_asymm hs
          · exact ih _ hp c hca he
        · rw [if_neg hs] at h
          cases h
          rcases List.mem_cons.1 hc with hca | hca
          · subst hca; exact scoreLt_irrefl _
          · exact scoreLt_false_trans (ih _ hp c hca he)
              (Bool.eq_false_iff.2 hs)
      · rw [if_neg hea] at h
        cases h
        rcases List.mem_cons.1 hc with hca | hca
        · subst hca; rw [he] at hea; exact absurd rfl hea
        · exact ih _ hp c hca he

lemma mem_sameKey {s c : Row} {others : List Row} :
    c ∈ sameKey s others ↔ c ∈ others ∧ c.key = s.key := by
  simp [sameKey]

/-- Modelled from the spec: one entry of the asof-join output.  `both`
attaches the selected other-row to the self-row at position `si`;
`selfOnly` is an unmatched self-row retained by LEFT/FULL, carrying the
configured default for the other-side payload (`none` when no default is
given); `otherOnly` is an unmatched other-row retained by RIGHT/FULL. -/
inductive OutRow where
  | both (si : Nat) (s : Row) (o : Row)
  | selfOnly (si : Nat) (s : Row) (d : Option Int)
  | otherOnly (o : Row)
deriving DecidableEq, Repr

/-- Output entry produced for the self-row `s` at position `k`. -/
def entryFor (dir : Direction) (others : List Row) (defaults : Option Int)
    (k : Nat) (s : Row) : OutRow :=
  match matchFor dir s others with
  | some o => OutRow.both k s o
  | none => OutRow.selfOnly k s defaults

/-- Modelled from the spec: the per-self-row part of the join output,
numbering the self-rows starting at `k`. -/
def matchedFrom (dir : Direction) (others : List Row) (defaults : Option Int) :
    Nat → List Row → List OutRow
  | _, [] => []
  | k, s :: ss =>
    entryFor dir others defaults k s :: matchedFrom dir others defaults (k + 1) ss

/-- Whether an other-row is selected as the match of some self-row. -/
def isMatchedOther (dir : Direction) (selfRows others : List Row) (o : Row) : Bool :=
  selfRows.any (fun s => decide (matchFor dir s others = some o))

/-- Other-rows not selected by any self-row, kept by RIGHT/FULL modes. -/
def unmatchedOthers (dir : Direction) (selfRows others : List Row) : List OutRow :=
  (others.filter (fun o => !isMatchedOther dir selfRows others o)).map OutRow.otherOnly

/-- RIGHT mode drops unmatched self-rows from the per-self-row part. -/
def keepInRight : OutRow → Bool
  | OutRow.selfOnly _ _ _ => false
  | _ => true

/-- Modelled from the spec: the asof-join of two bounded row collections.
Each self-row receives at most one other-row selected by the direction
policy; the mode controls which unmatched rows survive: LEFT keeps
unmatched self-rows, RIGHT keeps unmatched other-rows, FULL keeps both. -/
def asof_join (selfRows others : List Row) (mode : JoinMode) (dir : Direction)
    (defaults : Option Int) : List OutRow :=
  match mode with
  | JoinMode.LEFT => matchedFrom dir others defaults 0 selfRows
  | JoinMode.RIGHT =>
      (matchedFrom dir others defaults 0 selfRows).filter keepInRight ++
        unmatchedOthers dir selfRows others
  | JoinMode.FULL =>
      matchedFrom dir others defaults 0 selfRows ++
        unmatchedOthers dir selfRows others

/-- Other-rows attached to the self-row at position `i` in the output. -/
def attachedOthers (i : Nat) : List OutRow → List Row
  | [] => []
  | OutRow.both j _ o :: rest =>
      if j = i then o :: attachedOthers i rest else attachedOthers i rest
  | OutRow.selfOnly _ _ _ :: rest => attachedOthers i rest
  | OutRow.otherOnly _ :: rest => attachedOthers i rest

/-- C2 helper: unfolding the NEAREST minimality consequence of
pickBest_not_lt. -/
lemma nearest_min_of_not_lt {ts : Int} {c r : Row}
    (h : scoreLt (score Direction.NEAREST ts c) (score Direction.NEAREST ts r) = false) :
    tdist ts r.t ≤ tdist ts c.t := by
  simp only [score, scoreLt, Bool.or_eq_false_iff, Bool.and_eq_false_iff,
    decide_eq_false_iff_not, not_lt] at h
  exact h.1

/-- C2 helper: on an exact distance tie with a backward candidate, the
selected row is itself backward. -/
lemma nearest_tie_of_not_lt {ts : Int} {c r : Row}
    (h : scoreLt (score Direction.NEAREST ts c) (score Direction.NEAREST ts r) = false)
    (hc : c.t ≤ ts) (heq : tdist ts c.t = tdist ts r.t) : r.t ≤ ts := by
  simp only [score, scoreLt, Bool.or_eq_false_iff, Bool.and_eq_false_iff,
    decide_eq_false_iff_not, not_lt] at h
  rcases h.2 with h2 | h2
  · exact absurd heq h2
  · by_contra hr
    rw [if_neg hr, if_pos hc] at h2
    omega

/-- C3: under direction BACKWARD, a selected match is a same-key candidate
with timestamp at most the self timestamp, and its timestamp is maximal
among the same-key candidates at-or-before the self timestamp; when every
same-key candidate is strictly after the self timestamp there is no
match. -/
theorem backward_correct (s : Row) (others : List Row) :
    (∀ r, matchFor Direction.BACKWARD s others = some r →
        r ∈ others ∧ r.key = s.key ∧ r.t ≤ s.t ∧
          ∀ c ∈ others, c.key = s.key → c.t ≤ s.t → c.t ≤ r.t) ∧
    ((∀ c ∈ others, c.key = s.key → s.t < c.t) →
        matchFor Direction.BACKWARD s others = none) := by
  constructor
  · intro r h
    obtain ⟨hm, hel⟩ := pickBest_mem_eligible _ _ _ _ h
    obtain ⟨hmo, hkey⟩ := mem_sameKey.1 hm
    have hrt : r.t ≤ s.t := by
      simpa [eligible] using hel
    refine ⟨hmo, hkey, hrt, ?_⟩
    intro c hco hck hct
    have hcs : c ∈ sameKey s others := mem_sameKey.2 ⟨hco, hck⟩
    have hlt := pickBest_not_lt _ _ _ _ h c hcs (by simpa [eligible])
    simp only [score, scoreLt, Bool.or_eq_false_iff, Bool.and_eq_false_iff,
      decide_eq_false_iff_not, not_lt] at hlt
    omega
  · intro h
    apply pickBest_none_of
    intro c hc
    obtain ⟨hco, hck⟩ := mem_sameKey.1 hc
    have := h c hco hck
    simp [eligible]
    omega

/-- C4: under direction FORWARD, a selected match is a same-key candidate
with timestamp at least the self timestamp, and its timestamp is minimal
among the same-key candidates at-or-after the self timestamp; when every
same-key candidate is strictly before the self timestamp there is no
match. -/
theorem forward_correct (s : Row) (others : List Row) :
    (∀ r, matchFor Direction.FORWARD s others = some r →
        r ∈ others ∧ r.key = s.key ∧ s.t ≤ r.t ∧
          ∀ c ∈ others, c.key = s.key → s.t ≤ c.t → r.t ≤ c.t) ∧
    ((∀ c ∈ others, c.key = s.key → c.t < s.t) →
        matchFor Direction.FORWARD s others = none) := by
  constructor
  · intro r h
    obtain ⟨hm, hel⟩ := pickBest_mem_eligible _ _ _ _ h
    obtain ⟨hmo, hkey⟩ := mem_sameKey.1 hm
    have hrt : s.t ≤ r.t := by
      simpa [eligible] using hel
    refine ⟨hmo, hkey, hrt, ?_⟩
    intro c hco hck hct
    have hcs : c ∈ sameKey s others := mem_sameKey.2 ⟨hco, hck⟩
    have hlt := pickBest_not_lt _ _ _ _ h c hcs (by simpa [eligible])
    simp only [score, scoreLt, Bool.or_eq_false_iff, Bool.and_eq_false_iff,
      decide_eq_false_iff_not, not_lt] at hlt
    omega
  · intro h
    apply pickBest_none_of
    intro c hc
    obtain ⟨hco, hck⟩ := mem_sameKey.1 hc
    have := h c hco hck
    simp [eligible]
    omega

/-- C2: under direction NEAREST, a selected match is a same-key candidate
minimizing the absolute timestamp distance, and on an exact tie in
distance with a backward candidate the selected row is itself backward
(earlier-or-equal to the self timestamp); a match exists whenever any
same-key candidate exists. -/
theorem nearest_correct (s : Row) (others : List Row) :
    (∀ r, matchFor Direction.NEAREST s others = some r →
        r ∈ others ∧ r.key = s.key ∧
          (∀ c ∈ others, c.key = s.key → tdist s.t r.t ≤ tdist s.t c.t) ∧
          (∀ c ∈ others, c.key = s.key → c.t ≤ s.t →
            tdist s.t c.t = tdist s.t r.t → r.t ≤ s.t)) ∧
    ((∃ c ∈ others, c.key = s.key) →
        ∃ r, matchFor Direction.NEAREST s others = some r) := by
  constructor
  · intro r h
    obtain ⟨hm, _⟩ := pickBest_mem_eligible _ _ _ _ h
    obtain ⟨hmo, hkey⟩ := mem_sameKey.1 hm
    refine ⟨hmo, hkey, ?_, ?_⟩
    · intro c hco hck
      have hcs : c ∈ sameKey s others := mem_sameKey.2 ⟨hco, hck⟩
      exact nearest_min_of_not_lt (pickBest_not_lt _ _ _ _ h c hcs rfl)
    · intro c hco hck hct heq
      have hcs : c ∈ sameKey s others := mem_sameKey.2 ⟨hco, hck⟩
      exact nearest_tie_of_not_lt (pickBest_not_lt _ _ _ _ h c hcs rfl) hct heq
  · rintro ⟨c, hco, hck⟩
    exact pickBest_isSome _ _ _ c (mem_sameKey.2 ⟨hco, hck⟩) rfl

lemma attachedOthers_entryFor (dir : Direction) (others : List Row)
    (defaults : Option Int) (k i : Nat) (s : Row) (rest : List OutRow) (h : k ≠ i) :
    attachedOthers i (entryFor dir others defaults k s :: rest) =
      attachedOthers i rest := by
  rw [entryFor]
  cases matchFor dir s others with
  | none => rw [attachedOthers]
  | some o => rw [attachedOthers, if_neg h]

lemma attached_matchedFrom_lt (dir : Direction) (others : List Row)
    (defaults : Option Int) :
    ∀ (ss : List Row) (k i : Nat), i < k →
      attachedOthers i (matchedFrom dir others defaults k ss) = [] := by
  intro ss
  induction ss with
  | nil => intro k i h; rfl
  | cons s ss ih =>
    intro k i h
    rw [matchedFrom, attachedOthers_entryFor dir others defaults k i s _ (by omega)]
    exact ih (k + 1) i (by omega)

lemma attached_matchedFrom_le_one (dir : Direction) (others : List Row)
    (defaults : Option Int) :
    ∀ (ss : List Row) (k i : Nat),
      (attachedOthers i (matchedFrom dir others defaults k ss)).length ≤ 1 := by
  intro ss
  induction ss with
  | nil => intro k i; simp [matchedFrom, attachedOthers]
  | cons s ss ih =>
    intro k i
    rw [matchedFrom]
    by_cases hk : k = i
    · subst hk
      rw [entryFor]
      cases matchFor dir s others with
      | none =>
        rw [attachedOthers,
          attached_matchedFrom_lt dir others defaults ss (k + 1) k (by omega)]
        simp
      | some o =>
        rw [attachedOthers, if_pos rfl,
          attached_matchedFrom_lt dir others defaults ss (k + 1) k (by omega)]
        simp
    · rw [attachedOthers_entryFor dir others defaults k i s _ hk]
      exact ih (k + 1) i

lemma attachedOthers_append (i : Nat) :
    ∀ (l1 l2 : List OutRow),
      attachedOthers i (l1 ++ l2) = attachedOthers i l1 ++ attachedOthers i l2 := by
  intro l1
  induction l1 with
  | nil => intro l2; rfl
  | cons a l1 ih =>
    intro l2
    cases a with
    | both j s o =>
      rw [List.cons_append, attachedOthers, attachedOthers]
      by_cases hj : j = i
      · rw [if_pos hj, if_pos hj, ih, List.cons_append]
      · rw [if_neg hj, if_neg hj, ih]
    | selfOnly j s d => rw [List.cons_append, attachedOthers, attachedOthers, ih]
    | otherOnly o => rw [List.cons_append, attachedOthers, attachedOthers, ih]

lemma attached_map_otherOnly (i : Nat) :
    ∀ (l : List Row), attachedOthers i (l.map OutRow.otherOnly) = [] := by
  intro l
  induction l with
  | nil => rfl
  | cons a l ih => rw [List.map_cons, attachedOthers, ih]

lemma attached_filter_le (i : Nat) (p : OutRow → Bool) :
    ∀ (l : List OutRow),
      (attachedOthers i (l.filter p)).length ≤ (attachedOthers i l).length := by
  intro l
  induction l with
  | nil => simp [attachedOthers]
  | cons a l ih =>
    rw [List.filter_cons]
    by_cases hp : p a = true
    · rw [if_pos hp]
      cases a with
      | both j s o =>
        rw [attachedOthers, attachedOthers]
        by_cases hj : j = i
        · rw [if_pos hj, if_pos hj]
          simpa using ih
        · rw [if_neg hj, if_neg hj]
          exact ih
      | selfOnly j s d => rw [attachedOthers, attachedOthers]; exact ih
      | otherOnly o => rw [attachedOthers, attachedOthers]; exact ih
    · rw [if_neg hp]
      refine le_trans ih ?_
      cases a with
      | both j s o =>
        rw [attachedOthers]
        by_cases hj : j = i
        · rw [if_pos hj]; simp
        · rw [if_neg hj]
      | selfOnly j s d => rw [attachedOthers]
      | otherOnly o => rw [attachedOthers]

/-- C5: for every pair of inputs, every mode, every direction and every
default, each self-row position is associated with at most one other-row
in the asof-join output, even when several same-key candidates share a
timestamp or a distance. -/
theorem at_most_one_match (selfRows others : List Row) (mode : JoinMode)
    (dir : Direction) (defaults : Option Int) (i : Nat) :
    (attachedOthers i (asof_join selfRows others mode dir defaults)).length ≤ 1 := by
  cases mode with
  | LEFT =>
    exact attached_matchedFrom_le_one dir others defaults selfRows 0 i
  | RIGHT =>
    rw [asof_join, attachedOthers_append, unmatchedOthers, attached_map_otherOnly]
    rw [List.append_nil]
    exact le_trans (attached_filter_le i keepInRight _)
      (attached_matchedFrom_le_one dir others defaults selfRows 0 i)
  | FULL =>
    rw [asof_join, attachedOthers_append, unmatchedOthers, attached_map_otherOnly]
    rw [List.append_nil]
    exact attached_matchedFrom_le_one dir others defaults selfRows 0 i

lemma matchedFrom_length (dir : Direction) (others : List Row)
    (defaults : Option Int) :
    ∀ (ss : List Row) (k : Nat),
      (matchedFrom dir others defaults k ss).length = ss.length := by
  intro ss
  induction ss with
  | nil => intro k; rfl
  | cons s ss ih =>
    intro k
    rw [matchedFrom, List.length_cons, List.length_cons, ih (k + 1)]

lemma matchedFrom_get (dir : Direction) (others : List Row)
    (defaults : Option Int) :
    ∀ (ss : List Row) (k i : Nat) (s : Row), ss.get? i = some s →
      (matchedFrom dir others defaults k ss).get? i =
        some (entryFor dir others defaults (k + i) s) := by
  intro ss
  induction ss with
  | nil => intro k i s h; simp at h
  | cons a ss ih =>
    intro k i s h
    cases i with
    | zero =>
      rw [List.get?_cons_zero] at h
      cases h
      rw [matchedFrom, List.get?_cons_zero, Nat.add_zero]
    | succ n =>
      rw [List.get?_cons_succ] at h
      rw [matchedFrom, List.get?_cons_succ]
      have := ih (k + 1) n s h
      rw [show k + 1 + n = k + (n + 1) by omega] at this
      exact this

/-- C6: under mode LEFT the output has one entry per self-row; the entry
for the self-row at position `i` is that row with its selected match
attached when one exists, and otherwise that row with the configured
default other-side value (`none` standing for null/absent when no default
is given). -/
theorem left_mode_retains (selfRows others : List Row) (dir : Direction)
    (defaults : Option Int) (i : Nat) (s : Row)
    (h : selfRows.get? i = some s) :
    (asof_join selfRows others JoinMode.LEFT dir defaults).length = selfRows.length ∧
    (∀ o, matchFor dir s others = some o →
      (asof_join selfRows others JoinMode.LEFT dir defaults).get? i =
        some (OutRow.both i s o)) ∧
    (matchFor dir s others = none →
      (asof_join selfRows others JoinMode.LEFT dir defaults).get? i =
        some (OutRow.selfOnly i s defaults)) := by
  refine ⟨matchedFrom_length dir others defaults selfRows 0, ?_, ?_⟩
  · intro o ho
    rw [asof_join, matchedFrom_get dir others defaults selfRows 0 i s h]
    rw [entryFor, ho, Nat.zero_add]
  · intro ho
    rw [asof_join, matchedFrom_get dir others defaults selfRows 0 i s h]
    rw [entryFor, ho, Nat.zero_add]

/-- Modelled from the spec: a durable cache key, derived deterministically
from the function identity and the ordered argument values of one row. -/
structure CacheKey where
  function_id : String
  args : List String
deriving DecidableEq, Repr

/-- Outcome of one execution of the memoized per-row operation:
`ok v` is a successful result value, `failed` a raised failure. -/
inductive CallResult where
  | ok (v : Int)
  | failed
deriving DecidableEq, Repr

/-- Modelled from the spec: the state of the MemoizedCallCache.  `store` is
the durable content-addressed table (newest entry first); `calls_made` is
the in-memory counter of compute-function invocations of the current
process instance (the tutorial's api_requests_made). -/
structure CacheState where
  store : List (CacheKey × CallResult)
  calls_made : Nat
deriving DecidableEq, Repr

/-- Lookup of a key in the durable store. -/
def lookupEntry (k : CacheKey) : List (CacheKey × CallResult) → Option CallResult
  | [] => none
  | (k2, v) :: rest => if k2 = k then some v else lookupEntry k rest

/-- Modelled from the spec: `invoke_with_cache(function_id, args,
compute_fn)`.  On a hit the stored result is returned unchanged, without
invoking `compute_fn` and without touching the counter.  On a miss
`compute_fn` is invoked and the counter incremented; a successful result
is written to the durable store before being returned, while a failure
surfaces to the caller and is written only when the caller opted into
caching failures via `cache_failures`. -/
def invoke_with_cache (cache_failures : Bool) (fid : String) (args : List String)
    (fn : String → List String → CallResult) (st : CacheState) :
    CallResult × CacheState :=
  match lookupEntry ⟨fid, args⟩ st.store with
  | some v => (v, st)
  | none =>
    match fn fid args with
    | CallResult.ok v =>
        (CallResult.ok v,
          ⟨(⟨fid, args⟩, CallResult.ok v) :: st.store, st.calls_made + 1⟩)
    | CallResult.failed =>
        if cache_failures then
          (CallResult.failed,
            ⟨(⟨fid, args⟩, CallResult.failed) :: st.store, st.calls_made + 1⟩)
        else
          (CallResult.failed, ⟨st.store, st.calls_made + 1⟩)

/-- Modelled from the spec: a fresh process instance loading the same
durable store.  The durable table survives; the in-memory counter starts
at zero. -/
def restartProcess (st : CacheState) : CacheState := ⟨st.store, 0⟩

lemma invoke_hit (cf : Bool) (fid : String) (args : List String)
    (fn : String → List String → CallResult) (st : CacheState) (e : CallResult)
    (h : lookupEntry ⟨fid, args⟩ st.store = some e) :
    invoke_with_cache cf fid args fn st = (e, st) := by
  rw [invoke_with_cache, h]

lemma invoke_miss_ok (cf : Bool) (fid : String) (args : List String)
    (fn : String → List String → CallResult) (st : CacheState) (v : Int)
    (hl : lookupEntry ⟨fid, args⟩ st.store = none)
    (hf : fn fid args = CallResult.ok v) :
    invoke_with_cache cf fid args fn st =
      (CallResult.ok v,
        ⟨(⟨fid, args⟩, CallResult.ok v) :: st.store, st.calls_made + 1⟩) := by
  rw [invoke_with_cache, hl, hf]

lemma invoke_miss_failed_nocache (fid : String) (args : List String)
    (fn : String → List String → CallResult) (st : CacheState)
    (hl : lookupEntry ⟨fid, args⟩ st.store = none)
    (hf : fn fid args = CallResult.failed) :
    invoke_with_cache false fid args fn st =
      (CallResult.failed, ⟨st.store, st.calls_made + 1⟩) := by
  rw [invoke_with_cache, hl, hf]
  rfl

lemma invoke_miss_failed_cache (fid : String) (args : List String)
    (fn : String → List String → CallResult) (st : CacheState)
    (hl : lookupEntry ⟨fid, args⟩ st.store = none)
    (hf : fn fid args = CallResult.failed) :
    invoke_with_cache true fid args fn st =
      (CallResult.failed,
        ⟨(⟨fid, args⟩, CallResult.failed) :: st.store, st.calls_made + 1⟩) := by
  rw [invoke_with_cache, hl, hf]
  rfl

lemma lookup_after_ok (cf : Bool) (fid : String) (args : List String)
    (fn : String → List String → CallResult) (st : CacheState) (v : Int)
    (h : (invoke_with_cache cf fid args fn st).1 = CallResult.ok v) :
    lookupEntry ⟨fid, args⟩ (invoke_with_cache cf fid args fn st).2.store =
      some (CallResult.ok v) := by
  cases hl : lookupEntry ⟨fid, args⟩ st.store with
  | some w =>
    rw [invoke_hit cf fid args fn st w hl] at h ⊢
    have hw : w = CallResult.ok v := h
    subst hw
    exact hl
  | none =>
    cases hf : fn fid args with
    | ok w =>
      rw [invoke_miss_ok cf fid args fn st w hl hf] at h ⊢
      have hw : CallResult.ok w = CallResult.ok v := h
      injection hw with hwv
      subst hwv
      show lookupEntry ⟨fid, args⟩ ((⟨fid, args⟩, CallResult.ok w) :: st.store) =
        some (CallResult.ok w)
      rw [lookupEntry, if_pos rfl]
    | failed =>
      cases cf with
      | true =>
        rw [invoke_miss_failed_cache fid args fn st hl hf] at h
        cases h
      | false =>
        rw [invoke_miss_failed_nocache fid args fn st hl hf] at h
        cases h

/-- C1: once a call for `(function_id, args)` has produced a successful
result, a second call with the identical pair returns the identical
result and leaves the state — in particular the calls-made counter —
unchanged, for an arbitrary second compute function: the cached entry is
served and `compute_fn` is not invoked again. -/
theorem invoke_at_most_once (cf : Bool) (fid : String) (args : List String)
    (fn fn2 : String → List String → CallResult) (st : CacheState) (v : Int)
    (h : (invoke_with_cache cf fid args fn st).1 = CallResult.ok v) :
    invoke_with_cache cf fid args fn2 (invoke_with_cache cf fid args fn st).2 =
      (CallResult.ok v, (invoke_with_cache cf fid args fn st).2) :=
  invoke_hit cf fid args fn2 _ _ (lookup_after_ok cf fid args fn st v h)

/-- C1 witness: a concrete first call computes 7 and stores it; the second
call returns 7 from the durable store even though its compute function
only fails, and does not change the state. -/
theorem invoke_at_most_once_witness :
    invoke_with_cache false "check_email" ["sergey", "sergey@pathway.com"]
        (fun _ _ => CallResult.failed)
        ((invoke_with_cache false "check_email" ["sergey", "sergey@pathway.com"]
          (fun _ _ => CallResult.ok 7) ⟨[], 0⟩).2) =
      (CallResult.ok 7,
        (invoke_with_cache false "check_email" ["sergey", "sergey@pathway.com"]
          (fun _ _ => CallResult.ok 7) ⟨[], 0⟩).2) :=
  invoke_at_most_once false "check_email" ["sergey", "sergey@pathway.com"]
    (fun _ _ => CallResult.ok 7) (fun _ _ => CallResult.failed) ⟨[], 0⟩ 7 (by decide)

/-- C8: an entry successfully written by one process instance is a hit for
a fresh process instance loading the same durable store: the stored
result is returned unchanged for an arbitrary compute function (so
`compute_fn` is not invoked) and the fresh instance's state — whose
counter starts at zero — is unchanged. -/
theorem restart_persistence (fid : String) (args : List String)
    (fn fn2 : String → List String → CallResult) (st : CacheState) (v : Int)
    (h : (invoke_with_cache false fid args fn st).1 = CallResult.ok v) :
    invoke_with_cache false fid args fn2
        (restartProcess (invoke_with_cache false fid args fn st).2) =
      (CallResult.ok v,
        restartProcess (invoke_with_cache false fid args fn st).2) :=
  invoke_hit false fid args fn2 _ _ (lookup_after_ok false fid args fn st v h)

/-- C8 witness: a fresh process instance pointed at the durable store
written by a first instance serves the concrete key as a hit. -/
theorem restart_persistence_witness :
    invoke_with_cache false "check_email" ["anna", "anna@wordpress.com"]
        (fun _ _ => CallResult.failed)
        (restartProcess
          (invoke_with_cache false "check_email" ["anna", "anna@wordpress.com"]
            (fun _ _ => CallResult.ok 0) ⟨[], 0⟩).2) =
      (CallResult.ok 0,
        restartProcess
          (invoke_with_cache false "check_email" ["anna", "anna@wordpress.com"]
            (fun _ _ => CallResult.ok 0) ⟨[], 0⟩).2) :=
  restart_persistence "check_email" ["anna", "anna@wordpress.com"]
    (fun _ _ => CallResult.ok 0) (fun _ _ => CallResult.failed) ⟨[], 0⟩ 0 (by decide)

/-- C9: when the compute function fails on a cache miss (with
cache_failures off, the default), the failure surfaces to the caller, no
entry is persisted for the key, and a later call with the same key
re-invokes the compute function — the retry both increments the counter a
second time and persists its fresh successful result.  With the explicit
opt-in `cache_failures := true` the failure is persisted instead and a
later call is served from the store without re-invoking. -/
theorem failure_not_cached (fid : String) (args : List String)
    (fn : String → List String → CallResult) (st : CacheState)
    (hmiss : lookupEntry ⟨fid, args⟩ st.store = none)
    (hfail : fn fid args = CallResult.failed) :
    (invoke_with_cache false fid args fn st).1 = CallResult.failed ∧
    lookupEntry ⟨fid, args⟩ (invoke_with_cache false fid args fn st).2.store = none ∧
    (∀ (fn2 : String → List String → CallResult) (v : Int), fn2 fid args = CallResult.ok v →
      invoke_with_cache false fid args fn2 (invoke_with_cache false fid args fn st).2 =
        (CallResult.ok v,
          ⟨(⟨fid, args⟩, CallResult.ok v) :: st.store, st.calls_made + 2⟩)) ∧
    (∀ (fn2 : String → List String → CallResult),
      invoke_with_cache true fid args fn2 (invoke_with_cache true fid args fn st).2 =
        (CallResult.failed, (invoke_with_cache true fid args fn st).2)) := by
  have h1 := invoke_miss_failed_nocache fid args fn st hmiss hfail
  refine ⟨?_, ?_, ?_, ?_⟩
  · rw [h1]
  · rw [h1]; exact hmiss
  · intro fn2 v hok
    rw [h1]
    exact invoke_miss_ok false fid args fn2 ⟨st.store, st.calls_made + 1⟩ v hmiss hok
  · intro fn2
    have h3 := invoke_miss_failed_cache fid args fn st hmiss hfail
    rw [h3]
    exact invoke_hit true fid args fn2 _ CallResult.failed
      (by
        show lookupEntry ⟨fid, args⟩ ((⟨fid, args⟩, CallResult.failed) :: st.store) =
          some CallResult.failed
        rw [lookupEntry, if_pos rfl])

/-- C9 witness: on the empty store a failing compute function surfaces its
failure and leaves no entry, and a concrete succeeding retry re-invokes,
reaching two invocations; with the opt-in, the failure is served from the
store. -/
theorem failure_not_cached_witness :
    (invoke_with_cache false "check_email" ["rachel", "rachel@yahoo.com"]
        (fun _ _ => CallResult.failed) ⟨[], 0⟩).1 = CallResult.failed ∧
    lookupEntry ⟨"check_email", ["rachel", "rachel@yahoo.com"]⟩
        (invoke_with_cache false "check_email" ["rachel", "rachel@yahoo.com"]
          (fun _ _ => CallResult.failed) ⟨[], 0⟩).2.store = none ∧
    invoke_with_cache false "check_email" ["rachel", "rachel@yahoo.com"]
        (fun _ _ => CallResult.ok 5)
        (invoke_with_cache false "check_email" ["rachel", "rachel@yahoo.com"]
          (fun _ _ => CallResult.failed) ⟨[], 0⟩).2 =
      (CallResult.ok 5,
        ⟨[(⟨"check_email", ["rachel", "rachel@yahoo.com"]⟩, CallResult.ok 5)], 2⟩) ∧
    invoke_with_cache true "check_email" ["rachel", "rachel@yahoo.com"]
        (fun _ _ => CallResult.ok 5)
        (invoke_with_cache true "check_email" ["rachel", "rachel@yahoo.com"]
          (fun _ _ => CallResult.failed) ⟨[], 0⟩).2 =
      (CallResult.failed,
        (invoke_with_cache true "check_email" ["rachel", "rachel@yahoo.com"]
          (fun _ _ => CallResult.failed) ⟨[], 0⟩).2) := by
  have h := failure_not_cached "check_email" ["rachel", "rachel@yahoo.com"]
    (fun _ _ => CallResult.failed) ⟨[], 0⟩ (by decide) (by decide)
  exact ⟨h.1, h.2.1, h.2.2.1 (fun _ _ => CallResult.ok 5) 5 (by decide),
    h.2.2.2 (fun _ _ => CallResult.ok 5)⟩

/-- Modelled from the spec: one pipeline run of the caching tutorial.  A
fresh transformer instance (counter zero) processes the rows in order
against the durable store carried over from the previous run; each row's
`(user_id, email)` pair is the argument list of the memoized call. -/
def runPipeline (fn : String → List String → CallResult)
    (rows : List (List String)) (st : CacheState) : CacheState :=
  rows.foldl
    (fun acc args => (invoke_with_cache false "EmailCheckTransformer" args fn acc).2)
    (restartProcess st)

/-- The first users.csv of the caching tutorial: six rows of
`(user_id, email)`. -/
def usersV1 : List (List String) :=
  [["sergey", "sergey@pathway.com"],
   ["jack", "jack@guerillamail.com"],
   ["steven", "steven@gmail.com"],
   ["alice", "alice@mailinator.com"],
   ["rachel", "rachel@yahoo.com"],
   ["anna", "anna@wordpress.com"]]

/-- The second users.csv of the caching tutorial: three rows kept from the
first dataset and three new ones. -/
def usersV2 : List (List String) :=
  [["sergey", "sergey@pathway.com"],
   ["steven", "steven@gmail.com"],
   ["rachel", "rachel@yahoo.com"],
   ["john", "john@fakemail.fr"],
   ["diana", "diana@mail.com"],
   ["alex", "alex@gmail.com"]]

/-- Modelled from the spec: the disposable-email check the tutorial
memoizes, as a total function of the row's argument values (1 when the
email is from a disposable domain, 0 otherwise). -/
def emailCheckApi (_ : String) (args : List String) : CallResult :=
  CallResult.ok
    (if args.any (fun a =>
        a == "jack@guerillamail.com" || a == "alice@mailinator.com" ||
          a == "john@fakemail.fr")
      then 1 else 0)

/-- C7: the tutorial scenario.  Six rows with distinct emails cause exactly
6 invocations on the first run against the empty store, exactly 0 on an
immediate rerun with unchanged input, and exactly 3 when three of the six
rows are replaced by new ones — the three unchanged rows stay hits. -/
theorem caching_scenario :
    (runPipeline emailCheckApi usersV1 ⟨[], 0⟩).calls_made = 6 ∧
    (runPipeline emailCheckApi usersV1
      (runPipeline emailCheckApi usersV1 ⟨[], 0⟩)).calls_made = 0 ∧
    (runPipeline emailCheckApi usersV2
      (runPipeline emailCheckApi usersV1
        (runPipeline emailCheckApi usersV1 ⟨[], 0⟩))).calls_made = 3 := by
  decide

/-- C2 witness: self-row AMZN at t = 5 with same-key candidates at t = 4
and t = 6 (equal distance 1) plus a different-key row; NEAREST selects the
backward candidate at t = 4 even though the forward one arrives first in
the candidate list, the selected distance is minimal, and the tie-break
conclusion yields a backward timestamp. -/
theorem nearest_correct_witness :
    matchFor Direction.NEAREST ⟨"AMZN", 5, 0⟩
        [⟨"AMZN", 6, 20⟩, ⟨"AAPL", 5, 30⟩, ⟨"AMZN", 4, 10⟩] =
      some ⟨"AMZN", 4, 10⟩ ∧
    tdist 5 4 ≤ tdist 5 6 ∧ (4 : Int) ≤ 5 := by
  have h := (nearest_correct ⟨"AMZN", 5, 0⟩
    [⟨"AMZN", 6, 20⟩, ⟨"AAPL", 5, 30⟩, ⟨"AMZN", 4, 10⟩]).1
    ⟨"AMZN", 4, 10⟩ (by decide)
  exact ⟨by decide, h.2.2.1 ⟨"AMZN", 6, 20⟩ (by decide) (by decide),
    h.2.2.2 ⟨"AMZN", 4, 10⟩ (by decide) (by decide) (by decide) (by decide)⟩

/-- C3 witness: self-row MSFT at t = 10 with same-key candidates at 12, 8
and 9; BACKWARD selects the candidate at t = 9, which is at-or-before 10
and maximal among the candidates at-or-before 10 (in particular at least
the candidate at 8). -/
theorem backward_correct_witness :
    matchFor Direction.BACKWARD ⟨"MSFT", 10, 0⟩
        [⟨"MSFT", 12, 3⟩, ⟨"MSFT", 8, 1⟩, ⟨"MSFT", 9, 2⟩] =
      some ⟨"MSFT", 9, 2⟩ ∧
    (9 : Int) ≤ 10 ∧ (8 : Int) ≤ 9 := by
  have h := (backward_correct ⟨"MSFT", 10, 0⟩
    [⟨"MSFT", 12, 3⟩, ⟨"MSFT", 8, 1⟩, ⟨"MSFT", 9, 2⟩]).1
    ⟨"MSFT", 9, 2⟩ (by decide)
  exact ⟨by decide, h.2.2.1,
    h.2.2.2 ⟨"MSFT", 8, 1⟩ (by decide) (by decide) (by decide)⟩

/-- C4 witness: the asof-join tutorial scenario with dates encoded as day
offsets (2023-01-03 is day 3).  The AMZN event at day 3 joined FORWARD to
the daily prices selects the same-day AMZN price row, whose timestamp is
at-or-after the event and minimal among same-key candidates at-or-after
it. -/
theorem forward_correct_witness :
    matchFor Direction.FORWARD ⟨"AMZN", 3, 0⟩
        [⟨"AAPL", 3, -4⟩, ⟨"AMZN", 3, 42⟩, ⟨"AMZN", 4, 17⟩] =
      some ⟨"AMZN", 3, 42⟩ ∧
    (3 : Int) ≤ 3 ∧ (3 : Int) ≤ 4 := by
  have h := (forward_correct ⟨"AMZN", 3, 0⟩
    [⟨"AAPL", 3, -4⟩, ⟨"AMZN", 3, 42⟩, ⟨"AMZN", 4, 17⟩]).1
    ⟨"AMZN", 3, 42⟩ (by decide)
  exact ⟨by decide, h.2.2.1,
    h.2.2.2 ⟨"AMZN", 4, 17⟩ (by decide) (by decide) (by decide)⟩

/-- C6 witness: a single self-row with no candidates under LEFT mode is
retained in the output, carrying the configured default value 99 for the
other-side payload. -/
theorem left_mode_retains_witness :
    (asof_join [⟨"GOOGL", 1, 0⟩] [] JoinMode.LEFT Direction.BACKWARD
      (some 99)).length = 1 ∧
    (asof_join [⟨"GOOGL", 1, 0⟩] [] JoinMode.LEFT Direction.BACKWARD
      (some 99)).get? 0 = some (OutRow.selfOnly 0 ⟨"GOOGL", 1, 0⟩ (some 99)) := by
  have h := left_mode_retains [⟨"GOOGL", 1, 0⟩] [] Direction.BACKWARD (some 99) 0
    ⟨"GOOGL", 1, 0⟩ rfl
  exact ⟨h.1, h.2.2 (by decide)⟩

/-- Outcome of the HTTP layer for one request of the tutorial's
EmailCheckTransformer.invoke.  `raised` models the `requests.get` call
itself raising (connection error or the 1-second timeout); `response`
models a received response with its status (`status_ok` false makes
`raise_for_status` raise) and the optional boolean of
`result.json()["disposable"]` (`none` when JSON decoding or the key
access raises). -/
inductive HttpOutcome where
  | raised
  | response (status_ok : Bool) (disposable_field : Option Bool)
deriving DecidableEq, Repr

/-- The result dict returned by the tutorial's per-row function. -/
structure InvokeOutput where
  user_id : String
  email : String
  is_email_disposable : Option Bool
deriving DecidableEq, Repr

/-- The tutorial's per-row function EmailCheckTransformer.invoke, from the
caching guide.  The `requests.get` call sits outside the try block, so an
exception it raises propagates (`none`); the try block covers only
`raise_for_status` and the JSON field access, whose exceptions are caught
and leave `is_email_disposable` as `None`. -/
def EmailCheckTransformer.invoke (user_id email : String)
    (http : String → HttpOutcome) : Option InvokeOutput :=
  match http email with
  | HttpOutcome.raised => none
  | HttpOutcome.response status_ok disposable_field =>
      some ⟨user_id, email, if status_ok then disposable_field else none⟩

/-- C10 counterexample: when the `requests.get` call itself raises (for
example on its 1-second timeout), EmailCheckTransformer.invoke propagates
the exception to its caller instead of returning a result dict — so it is
not true that every exception of the HTTP request is caught. -/
theorem invoke_propagates_get_failure :
    EmailCheckTransformer.invoke "sergey" "sergey@pathway.com"
      (fun _ => HttpOutcome.raised) = none := rfl

/-- C10 amended: EmailCheckTransformer.invoke catches every exception
raised after a response was received — a failing status check or a failing
JSON field access yields a normal result dict with is_email_disposable
None and the input user_id and email passed through unchanged — but an
exception raised by the `requests.get` call itself propagates to the
caller. -/
theorem invoke_error_handling (user_id email : String)
    (http : String → HttpOutcome) :
    (∀ (status_ok : Bool) (d : Option Bool),
      http email = HttpOutcome.response status_ok d →
        EmailCheckTransformer.invoke user_id email http =
          some ⟨user_id, email, if status_ok then d else none⟩) ∧
    (http email = HttpOutcome.raised →
      EmailCheckTransformer.invoke user_id email http = none) := by
  constructor
  · intro status_ok d h
    rw [EmailCheckTransformer.invoke, h]
  · intro h
    rw [EmailCheckTransformer.invoke, h]

/-- C10 amended witness: a received response with a non-OK status (the
kickbox request failing with an HTTP error) still produces a normal
result dict with is_email_disposable None and the inputs passed
through. -/
theorem invoke_error_handling_witness :
    EmailCheckTransformer.invoke "jack" "jack@guerillamail.com"
        (fun _ => HttpOutcome.response false none) =
      some ⟨"jack", "jack@guerillamail.com", none⟩ :=
  (invoke_error_handling "jack" "jack@guerillamail.com"
    (fun _ => HttpOutcome.response false none)).1 false none rfl
